import Mathlib

/-!
Verification of the anomaly-detection and attribution pipeline of
`blotOutAnalysis.py` (and its near-duplicate `new_dataset_playground.py`).

The pipeline's pure logic is shallowly embedded here:
* floats are modelled by `ℚ`; a pandas `NaN` cell is modelled by `Option.none`;
* dataframe rows become structures, dataframe columns become lists;
* external library calls (Prophet, sklearn `NearestNeighbors`/`DBSCAN`,
  kneed's `KneeLocator`) are modelled by their documented input/output
  behaviour where the repository only passes parameters to them.
-/

namespace BlotOut
/-! ## Anomaly Detector (`prophet_model`, `determine_anomaly_weight`)

`prophet_model(df, dimension)` fits a Prophet model (external) and then
post-processes the forecast frame.  The post-processing per row is pure:

    forecast['is_anomaly'] = 1 if not (yhat_lower <= y <= yhat_upper) else 0
    forecast['percent_diff'] = (y - yhat) / y.where(y != 0)
-/

/-- One row of the forecast frame used by `determine_anomaly_weight`:
timestamp `ds` (in hours), actual `y`, the Prophet interval bounds, and the
`is_anomaly` flag (`1`/`0` in the source, a `Bool` here). -/
structure WRow where
  ds : Int
  y : ℚ
  yhat_lower : ℚ
  yhat_upper : ℚ
  is_anomaly : Bool
  deriving DecidableEq, Repr

/-- `forecast['is_anomaly']`: `1 if not (yhat_lower <= y <= yhat_upper) else 0`. -/
def isAnomalyFlag (yhat_lower y yhat_upper : ℚ) : Bool :=
  !(yhat_lower ≤ y ∧ y ≤ yhat_upper)

/-- `forecast['percent_diff'] = (y - yhat) / y.where(y != 0)`.
`Series.where(cond)` masks the entries where `cond` fails to `NaN`, and a
division with a `NaN` denominator is `NaN`; `none` models `NaN`. -/
def percentDiff (y yhat : ℚ) : Option ℚ :=
  if y ≠ 0 then some ((y - yhat) / y) else none

/-- Elementwise effect of `df.fillna(0)` (used by `create_contributor_col`
before clustering) on one cell. -/
def fillna0 (o : Option ℚ) : ℚ :=
  o.getD 0

/-- Minimum of a list of rationals (`Series.min()` on a nonempty series);
the `[]` case is never hit on the guarded code path. -/
def listMin : List ℚ → ℚ
  | [] => 0
  | [x] => x
  | x :: y :: xs => min x (listMin (y :: xs))

/-- The `±8`-hour window
`df[(df['ds'] >= row['ds'] - 8h) & (df['ds'] <= row['ds'] + 8h)]`. -/
def windowSubset (df : List WRow) (row : WRow) : List WRow :=
  df.filter (fun r => decide (row.ds - 8 ≤ r.ds ∧ r.ds ≤ row.ds + 8))

/-- `determine_anomaly_weight(df, row)`:

    if row['is_anomaly'] == 1:
      subset = df[(df['ds'] >= row['ds'] - 8h) & (df['ds'] <= row['ds'] + 8h)]
      if not subset.empty:
        result = min(abs(subset['yhat_upper'] - row['y']).min(),
                     abs(subset['yhat_lower'] - row['y']).min())
      else:
        result = abs(row['yhat_upper'] - row['y'])
    else:
      result = 0
-/
def determineAnomalyWeight (df : List WRow) (row : WRow) : ℚ :=
  if row.is_anomaly then
    let subset := windowSubset df row
    if subset.isEmpty then
      |row.yhat_upper - row.y|
    else
      min (listMin (subset.map (fun r => |r.yhat_upper - row.y|)))
          (listMin (subset.map (fun r => |r.yhat_lower - row.y|)))
  else 0

/-! ## Time-Series Aggregator (`visitors_by_geography` and friends)

The polars pipeline is

    visitors.with_columns(time_truncated = event_datetime.dt.truncate("1h"))
            .group_by("time_truncated", ...).agg(count).sort("time_truncated")

followed by a pivot whose `fill_null(0)` only fills the missing *dimension*
cells of existing hour rows.  `group_by` emits one row per **distinct key
present in the data**, so an hour of the raw window in which no event
occurred yields no row at all. -/

/-- `event_datetime.dt.truncate("1h")`: floor a raw timestamp (here in
minutes since the epoch) to its hour index. -/
def hourBucket (t : Nat) : Nat := t / 60

/-- The hour column of the aggregated frame: one entry per distinct event
hour, sorted ascending (`group_by` + `sort("time_truncated")`). -/
def aggHours (ts : List Nat) : List Nat :=
  List.insertionSort (· ≤ ·) ((ts.map hourBucket).dedup)

/-! ## Dimension Attributor clustering (`find_eps`, `find_maximum_contributors`)

`find_eps` chooses `n_neighbors`, asks sklearn's `NearestNeighbors` for the
distance matrix, sorts each column, feeds column 1 (each point's distance
to its nearest other point) to kneed's `KneeLocator` and returns the curve
value at the located elbow.  `NearestNeighbors` and `KneeLocator` are
external libraries; the repository's own logic in `find_eps` is the
`n_neighbors` formula, which we embed.

`find_maximum_contributors(df, index, eps)` clusters the absolute values of
one row with `DBSCAN(eps=eps*0.5, min_samples=1)`.  DBSCAN with
`min_samples = 1` makes every point a core point, so its clusters are
exactly the connected components of the "within `eps`" graph and no point
is left as noise; we model that documented behaviour. -/

/-- The `n_neighbors` computation of `find_eps`:

    n_neighbors = min(8, len(df) - 1)
    if n_neighbors < 2:
        n_neighbors = 2
-/
def findEpsNNeighbors (n : Nat) : Nat :=
  let k := min 8 (n - 1)
  if k < 2 then 2 else k

/-- One closure step: every index of `pts` within `eps` of some index of the
current set `s`. -/
def closeStep (eps : ℚ) (pts : List ℚ) (s : List Nat) : List Nat :=
  (List.range pts.length).filter
    (fun j => s.any (fun i => decide (|pts.getD i 0 - pts.getD j 0| ≤ eps)))

/-- The `eps`-connected component of index `i` (iterating the closure step
`pts.length` times reaches the fixpoint). -/
def component (eps : ℚ) (pts : List ℚ) (i : Nat) : List Nat :=
  Nat.iterate (closeStep eps pts) pts.length [i]

/-- The clusters produced by `DBSCAN(eps=eps, min_samples=1)` on the 1-D
point list `pts`: connected components, listed in order of first discovery
(label `0` is the component of point `0`, and so on). -/
def dbscanClusters (eps : ℚ) (pts : List ℚ) : List (List Nat) :=
  (List.range pts.length).foldl
    (fun acc i =>
      if acc.any (fun c => decide (i ∈ c)) then acc
      else acc ++ [component eps pts i])
    []

/-- Maximum of a list of rationals (`max(...)` on a nonempty array). -/
def listMax : List ℚ → ℚ
  | [] => 0
  | [x] => x
  | x :: y :: xs => max x (listMax (y :: xs))

/-- `max(np.abs(clusters[k]))`: largest absolute member value of a cluster
(members given as indices into the row's value list). -/
def clusterMaxAbs (vals : List ℚ) (c : List Nat) : ℚ :=
  listMax (c.map (fun i => |vals.getD i 0|))

/-- The values of one row of the per-dimension percent-diff table
(`df.iloc[index].to_list()`). -/
def rowVals (row : List (String × ℚ)) : List ℚ :=
  row.map Prod.snd

/-- `df.columns[np.where(reshaped_row == val)[0][0]]`: the first column
whose value equals `v`. -/
def firstColWithValue (row : List (String × ℚ)) (v : ℚ) : String :=
  match row.find? (fun p => decide (p.2 = v)) with
  | some p => p.1
  | none => ""

/-- The clusters actually used by `find_maximum_contributors`:
`DBSCAN(eps=eps*0.5, min_samples=1).fit(np.abs(reshaped_row))`. -/
def fmcClusters (row : List (String × ℚ)) (eps : ℚ) : List (List Nat) :=
  dbscanClusters (eps * (1 / 2)) ((rowVals row).map (fun v => |v|))

/-- `find_maximum_contributors(df, index, eps)`: cluster the row's absolute
values, sort the clusters by largest absolute member (descending, as
`sorted(clusters, key=max(np.abs(...)), reverse=True)`), take the top
cluster; return `None` when there is exactly one cluster, otherwise the
first-matching column name of each member value.  (An empty row would raise
`IndexError` in the source before the single-cluster test; all call sites
pass nonempty rows.) -/
def findMaximumContributors (row : List (String × ℚ)) (eps : ℚ) :
    Option (List String) :=
  let vals := rowVals row
  let clusters := fmcClusters row eps
  let sortedClusters := List.insertionSort
    (fun c₁ c₂ => clusterMaxAbs vals c₂ ≤ clusterMaxAbs vals c₁) clusters
  let maxCluster := sortedClusters.headD []
  if sortedClusters.length = 1 then none
  else some (maxCluster.map (fun i => firstColWithValue row (vals.getD i 0)))

/-! ## Episode root cause (`generate_anomaly_group_report`)

For each episode the report sums per-metric anomaly counts
(`metric_anomaly_counts`, a dict in metric-column order) and derives a
root-cause label.  We embed that decision logic; the per-metric merged
contributor sets enter only through a lookup (`contribsOf`). -/

/-- `ANOMALY_PRIORITY.get(x, float('inf'))`; the infinite default is
modelled by a value larger than every real priority (they are `1..8`). -/
def anomalyPriority (m : String) : Nat :=
  if m = "landing_page" then 1
  else if m = "visitors" then 2
  else if m = "search" then 3
  else if m = "login" then 4
  else if m = "added_to_cart" then 5
  else if m = "checkout_started" then 6
  else if m = "orders" then 7
  else if m = "buyers" then 8
  else 1000000

/-- `metric_anomaly_counts.get(metric, 0)`. -/
def countOf (counts : List (String × Nat)) (m : String) : Nat :=
  ((counts.find? (fun p => p.1 == m)).map Prod.snd).getD 0

/-- The scan that computes `most_common_metrics` and `max_count`:

    most_common_metrics = []; max_count = 0
    for metric_name, count in metric_anomaly_counts.items():
        if count > max_count: max_count = count; most_common_metrics = [metric_name]
        elif count == max_count: most_common_metrics.append(metric_name)
-/
def mostCommonScan (counts : List (String × Nat)) : List String × Nat :=
  counts.foldl
    (fun acc p =>
      if p.2 > acc.2 then ([p.1], p.2)
      else if p.2 = acc.2 then (acc.1 ++ [p.1], acc.2)
      else acc)
    ([], 0)

/-- `min(ms, key=lambda x: ANOMALY_PRIORITY.get(x, inf))`: the first element
with minimal priority (Python's `min` keeps the earliest on ties). -/
def minByPriority : List String → Option String
  | [] => none
  | m :: t =>
    some (t.foldl (fun best x =>
      if anomalyPriority x < anomalyPriority best then x else best) m)

/-- `most_common_metric`: the tie-break (`min` by priority) only fires when
there is more than one candidate; an empty candidate list would raise in
the source (`most_common_metrics[0]`), modelled as `none`. -/
def mostCommonMetric (counts : List (String × Nat)) : Option String :=
  if (mostCommonScan counts).1.length > 1 then minByPriority (mostCommonScan counts).1
  else (mostCommonScan counts).1.head?

/-- `funnel_metrics` (note: this local list starts at `visitors`). -/
def funnelMetrics : List String :=
  ["visitors", "landing_page_viewers", "added_to_cart", "checkout_started",
   "orders", "buyers"]

/-- `funnel_metrics.index(m) if m in funnel_metrics else -1`; the `-1`
("not in the funnel") is modelled as `none`. -/
def funnelIdx (m : String) : Option Nat :=
  if m ∈ funnelMetrics then some (funnelMetrics.indexOf m) else none

/-- `upstream_metrics = funnel_metrics[:idx]`. -/
def upstreamMetrics (idx : Nat) : List String :=
  funnelMetrics.take idx

/-- `upstream_anomalies = sum(metric_anomaly_counts.get(m, 0) for m in upstream)`. -/
def upstreamAnomalies (counts : List (String × Nat)) (idx : Nat) : Nat :=
  ((upstreamMetrics idx).map (countOf counts)).sum

/-- `max(upstream_counts.items(), key=lambda x: x[1])[0]`: the first metric
with maximal count (Python's `max` keeps the earliest on ties). -/
def maxByCount (counts : List (String × Nat)) : List String → Option String
  | [] => none
  | m :: t =>
    some (t.foldl (fun best x =>
      if countOf counts x > countOf counts best then x else best) m)

/-- The root-cause label (`"Funnel effect from {m} (...)"` or
`"Direct anomaly in {m} (...)"`), with the metric and the contributor list
that the source splices into the string. -/
inductive RootCause where
  | funnelEffect (metric : String) (contributors : List String)
  | directAnomaly (metric : String) (contributors : List String)
  deriving DecidableEq, Repr

/-- The root-cause decision of `generate_anomaly_group_report`:
`upstream_anomalies >= max_count * 0.5` is the exact integer test
`2 * upstream_anomalies ≥ max_count` (both sides are integers and `* 0.5`
is exact in binary floating point). -/
def rootCause (counts : List (String × Nat)) (contribsOf : String → List String) :
    Option RootCause :=
  match mostCommonMetric counts with
  | none => none
  | some mcm =>
    match funnelIdx mcm with
    | some idx =>
      if idx > 0 then
        if 2 * upstreamAnomalies counts idx ≥ (mostCommonScan counts).2 then
          match maxByCount counts (upstreamMetrics idx) with
          | some mcu => some (.funnelEffect mcu (contribsOf mcu))
          | none => none
        else some (.directAnomaly mcm (contribsOf mcm))
      else some (.directAnomaly mcm (contribsOf mcm))
    | none => some (.directAnomaly mcm (contribsOf mcm))

/-! ## Episode Grouper (`generate_anomaly_group_report`, grouping passes)

The grouping operates on the chronologically sorted anomalous rows of the
anomaly report.  Each row carries its timestamp (`ds`, in hours) and its
per-metric `percent_diff` cells (in metric-column order; `none` is a `NaN`
cell).  The sign of a row is taken from the first non-null nonzero
`percent_diff` (`1 if > 0 else -1`).  The loop seeds a group at the first
unprocessed anomaly, then repeats scan passes over the unprocessed
anomalies, absorbing any within 3 hours of **any** current member with
matching sign, until a pass changes nothing. -/

/-- An anomalous row of the anomaly report: timestamp and the per-metric
`percent_diff` cells in column order. -/
structure ARow where
  ds : Int
  pdiffs : List (Option ℚ)
  deriving DecidableEq, Repr

/-- The sign scan:

    for metric in metric_columns:
        if pd.notna(row[metric]) and row[metric] != 0:
            sign = 1 if row[metric] > 0 else -1
            break
-/
def rowSign (r : ARow) : Option Int :=
  match r.pdiffs.find? (fun o => match o with
    | some v => decide (v ≠ 0)
    | none => false) with
  | some (some v) => some (if 0 < v then 1 else -1)
  | _ => none

/-- One inner `for j in range(len(anomaly_indices))` pass over the
unprocessed anomalies, in order.  The member list grows during the pass
(an anomaly later in the scan can join through one absorbed earlier in the
same pass).  Returns the members, the still-unprocessed rows, and whether
the pass changed anything (`group_changed`). -/
def absorbScan (s : Int) : List ARow → List ARow → List ARow × List ARow × Bool
  | members, [] => (members, [], false)
  | members, r :: rest =>
    if (∃ m ∈ members, |r.ds - m.ds| ≤ 3) ∧ rowSign r = some s then
      let res := absorbScan s (members ++ [r]) rest
      (res.1, res.2.1, true)
    else
      let res := absorbScan s members rest
      (res.1, r :: res.2.1, res.2.2)

/-- The `while group_changed:` loop.  Every changed pass absorbs at least
one row, so `rest.length + 1` passes of fuel always reach the fixpoint. -/
def absorbFix (s : Int) : Nat → List ARow → List ARow → List ARow × List ARow
  | 0, members, rest => (members, rest)
  | fuel + 1, members, rest =>
    let res := absorbScan s members rest
    if res.2.2 then absorbFix s fuel res.1 res.2.1
    else (res.1, res.2.1)

/-- The outer `while i < len(anomaly_indices)` loop: seed a group at the
earliest unprocessed anomaly (skipping rows with no sign, which the source
never assigns to any group), absorb to the fixpoint, and continue on the
remainder.  Fuel (`rows.length`) bounds the number of seeds. -/
def groupAux : Nat → List ARow → List (Int × List ARow)
  | 0, _ => []
  | _, [] => []
  | fuel + 1, r :: rs =>
    match rowSign r with
    | none => groupAux fuel rs
    | some s =>
      let res := absorbFix s (rs.length + 1) [r] rs
      (s, res.1) :: groupAux fuel res.2

/-- The episode grouping of the (chronologically sorted) anomalous rows:
a list of `(sign, members)` groups. -/
def groupAnomalies (rows : List ARow) : List (Int × List ARow) :=
  groupAux rows.length rows

/-- A chain of hours inside the episode member list `L`, with pairwise
timestamp gaps of at most 3 hours. -/
def episodeChain (L : List ARow) (a b : ARow) : Prop :=
  Relation.ReflTransGen (fun x y => x ∈ L ∧ y ∈ L ∧ |x.ds - y.ds| ≤ 3) a b

/-- The episode invariant: all members carry the group's sign and any two
members are linked by a chain of members with gaps of at most 3 hours. -/
def GoodGroup (s : Int) (L : List ARow) : Prop :=
  (∀ m ∈ L, rowSign m = some s) ∧ ∀ a ∈ L, ∀ b ∈ L, episodeChain L a b

/-! ## Scenario Classifier (`analyze_anomaly_scenarios`)

For every group of the group report, the classifier collects the hours of
the anomaly report inside the group's `[start_time, end_time]` range.  For
each hour it takes the metrics with an anomaly flag, selects the single
highest-priority one (`min` by `ANOMALY_PRIORITY.get(x, inf)`), and — when
that metric's contributor cell is nonempty — records its cleaned
contributor list under that metric.  The scenario tag is then decided from
`is_single_hour`, the set of per-hour selected metrics, and the
"consistent" contributors.  We embed the classification logic; the report
payload dictionaries built alongside each tag do not affect which tag is
chosen and are omitted. -/

/-- One row of `anomaly_report` as the classifier reads it: timestamp, the
`{metric}_anomaly` flags and the `{metric}_contributors` cells, each in
column order. -/
structure RRow where
  ds : Int
  anomalies : List (String × Bool)
  contributors : List (String × List String)
  deriving DecidableEq, Repr

/-- The metrics with an anomaly in this hour (`col.endswith('_anomaly') and
hour_row[col] > 0`), in column order. -/
def hourMetrics (r : RRow) : List String :=
  (r.anomalies.filter (fun p => p.2)).map Prod.fst

/-- `hour_row.get(f'{m}_contributors', [])`. -/
def contribsAt (r : RRow) (m : String) : List String :=
  ((r.contributors.find? (fun p => p.1 == m)).map Prod.snd).getD []

/-- `str.strip()`: drop leading and trailing whitespace. -/
def stripStr (s : String) : String :=
  String.mk (((s.data.dropWhile Char.isWhitespace).reverse.dropWhile
    Char.isWhitespace).reverse)

/-- `average_contributors`: strip each contributor name and drop the ones
that come out empty. -/
def averageContributors (cs : List String) : List String :=
  (cs.map stripStr).filter (fun c => decide (c ≠ ""))

/-- `anomaly_report[(ds >= start_time) & (ds <= end_time)]`. -/
def groupHours (report : List RRow) (start stop : Int) : List RRow :=
  report.filter (fun r => decide (start ≤ r.ds ∧ r.ds ≤ stop))

/-- Append an hour's cleaned contributor list under metric `m`
(`metric_contributors_by_hour`, a dict in first-insertion order). -/
def addContribs (mcbh : List (String × List (List String))) (m : String)
    (cs : List String) : List (String × List (List String)) :=
  if mcbh.any (fun p => p.1 == m) then
    mcbh.map (fun p => if p.1 == m then (p.1, p.2 ++ [cs]) else p)
  else mcbh ++ [(m, [cs])]

/-- The per-group scan: returns `metric_contributors_by_hour` and
`group_anomalies` (hour, selected metric).  An hour contributes only if it
has at least one anomalous metric; its contributor lists are recorded only
when the selected metric's raw contributor cell is nonempty. -/
def scanGroup (report : List RRow) (start stop : Int) :
    List (String × List (List String)) × List (Int × String) :=
  (groupHours report start stop).foldl
    (fun acc r =>
      match minByPriority (hourMetrics r) with
      | none => acc
      | some tm =>
        let raw := contribsAt r tm
        ((if raw ≠ [] then addContribs acc.1 tm (averageContributors raw)
          else acc.1),
          acc.2 ++ [(r.ds, tm)]))
    ([], [])

/-- `get_consistent_contributors`, per metric: count every contributor
occurrence across the metric's recorded hour lists and keep those with
`count >= total_hours * 0.5`, where `total_hours = len(hourly_contribs)` is
the number of **recorded** lists for that metric (the exact integer test is
`2 * count ≥ total_hours`). -/
def consistentFor (lists : List (List String)) : List String :=
  (lists.flatten.dedup).filter
    (fun c => decide (2 * lists.flatten.count c ≥ lists.length))

/-- `get_consistent_contributors(metric_contributors_by_hour)`. -/
def getConsistentContributors (mcbh : List (String × List (List String))) :
    List (String × List String) :=
  mcbh.map (fun p => (p.1, consistentFor p.2))

/-- `has_contributors = any(contribs for contribs in values())`. -/
def hasConsistent (cc : List (String × List String)) : Bool :=
  cc.any (fun p => !p.2.isEmpty)

/-- The union of pairwise intersections over ordered metric pairs
(`shared_contributors`). -/
def sharedContributors : List (String × List String) → List String
  | [] => []
  | p :: t =>
    (p.2.filter (fun c => t.any (fun q => decide (c ∈ q.2)))) ++
      sharedContributors t

/-- The scenario tag A/B/C/D. -/
inductive Scen where
  | A | B | C | D
  deriving DecidableEq, Repr

/-- The classification of one group (`None` models the `continue` taken
when the group has no anomalous hour at all):

    if is_single_hour or len(unique_metrics) == 1: D
    elif not has_contributors: C
    elif shared_contributors: A
    else: B
-/
def classifyGroup (report : List RRow) (start stop : Int) : Option Scen :=
  if ((scanGroup report start stop).2).isEmpty then none
  else if start = stop ∨
      ((((scanGroup report start stop).2).map Prod.snd).dedup).length = 1 then
    some Scen.D
  else if !hasConsistent (getConsistentContributors (scanGroup report start stop).1) then
    some Scen.C
  else if !(sharedContributors
      (getConsistentContributors (scanGroup report start stop).1)).isEmpty then
    some Scen.A
  else some Scen.B

/-- A two-hour, two-metric fixture: `visitors` and `orders` both anomalous,
sharing the consistent contributor `US`. -/
def exReportA : List RRow :=
  [⟨0, [("visitors", true), ("orders", true)],
      [("visitors", ["US"]), ("orders", ["US"])]⟩,
   ⟨1, [("visitors", false), ("orders", true)],
      [("visitors", []), ("orders", ["US"])]⟩]

/-- A two-hour fixture in which **both** `visitors` and `orders` are
anomalous at **every** hour: the higher-priority `visitors` is the selected
metric of each hour, so the classifier sees a single "unique" metric. -/
def exReportD : List RRow :=
  [⟨0, [("visitors", true), ("orders", true)],
      [("visitors", ["US"]), ("orders", ["UK"])]⟩,
   ⟨1, [("visitors", true), ("orders", true)],
      [("visitors", ["US"]), ("orders", ["UK"])]⟩]

theorem listMin_le {l : List ℚ} {x : ℚ} (hx : x ∈ l) : listMin l ≤ x := by
  induction l with
  | nil => cases hx
  | cons a t ih =>
    cases t with
    | nil =>
      rcases List.mem_singleton.mp hx with rfl
      simp [listMin]
    | cons b t' =>
      rcases List.mem_cons.mp hx with rfl | hxt
      · simp [listMin]
      · exact le_trans (min_le_right _ _) (ih hxt)

theorem listMin_mem {l : List ℚ} (h : l ≠ []) : listMin l ∈ l := by
  induction l with
  | nil => cases h rfl
  | cons a t ih =>
    cases t with
    | nil => simp [listMin]
    | cons b t' =>
      rcases min_cases a (listMin (b :: t')) with ⟨hmin, _⟩ | ⟨hmin, _⟩
      · simp [listMin, hmin]
      · have := ih (by simp)
        simp only [listMin, hmin]
        exact List.mem_cons_of_mem _ this

theorem listMin_map_min (f g : WRow → ℚ) (l : List WRow) (h : l ≠ []) :
    min (listMin (l.map f)) (listMin (l.map g)) =
      listMin (l.map (fun r => min (f r) (g r))) := by
  induction l with
  | nil => cases h rfl
  | cons a t ih =>
    cases t with
    | nil => simp [listMin]
    | cons b t' =>
      have ht : b :: t' ≠ [] := by simp
      have := ih ht
      simp only [List.map_cons, listMin] at this ⊢
      rw [min_min_min_comm, this]

/-- C2 (counterexample): two events at minutes `0` and `120` span a raw
window of `H = 3` hours (hours `0`, `1`, `2`), but the aggregated series has
only `2` entries — the empty hour `1` does not appear at all, so
`len(series) = 2 ≠ 3 = H`. -/
theorem aggHours_gap_counterexample :
    aggHours [0, 120] = [0, 2] ∧
    hourBucket 120 - hourBucket 0 + 1 = 3 ∧
    (aggHours [0, 120]).length = 2 ∧
    (1 : Nat) ∉ aggHours [0, 120] := by
  refine ⟨?_, ?_, ?_, ?_⟩ <;> decide

/-- C2 (amended): the aggregated hourly series has exactly one entry per
hour **that contains at least one event**, in strictly increasing order:
its entries are precisely the distinct event hours, with no duplicates.
Hours of the analysis window with zero events are absent (their zero rows
are only reconstituted downstream, e.g. `anomaly_df` re-indexes over the
full `pd.date_range` of the window and pads with zeros). -/
theorem aggHours_spec (ts : List Nat) :
    (∀ h : Nat, h ∈ aggHours ts ↔ ∃ t ∈ ts, hourBucket t = h) ∧
    (aggHours ts).Sorted (· < ·) ∧
    (aggHours ts).length = ((ts.map hourBucket).dedup).length := by
  refine ⟨?_, ?_, ?_⟩
  · intro h
    constructor
    · intro hm
      have hd : h ∈ (ts.map hourBucket).dedup :=
        ((List.perm_insertionSort (· ≤ ·) _).mem_iff).mp hm
      rcases List.mem_map.mp (List.mem_dedup.mp hd) with ⟨t, ht, rfl⟩
      exact ⟨t, ht, rfl⟩
    · rintro ⟨t, ht, rfl⟩
      exact ((List.perm_insertionSort (· ≤ ·) _).mem_iff).mpr
        (List.mem_dedup.mpr (List.mem_map.mpr ⟨t, ht, rfl⟩))
  · have hsorted : (aggHours ts).Sorted (· ≤ ·) :=
      List.sorted_insertionSort (· ≤ ·) _
    have hnodup : (aggHours ts).Nodup :=
      (List.perm_insertionSort (· ≤ ·) _).symm.nodup (List.nodup_dedup _)
    exact hsorted.lt_of_le hnodup
  · exact (List.perm_insertionSort (· ≤ ·) _).length_eq

/-- C1 (counterexample): at an hour with `actual == 0` (take `yhat = 5`),
`percent_diff` is `NaN` (modelled `none`), not `0`: the code masks the
denominator with `y.where(y != 0)`, producing `NaN`, and nothing in
`prophet_model` replaces it with `0`. -/
theorem percentDiff_zero_counterexample :
    percentDiff 0 5 = none ∧ percentDiff 0 5 ≠ some 0 := by
  constructor <;> simp [percentDiff]

/-- C1 (amended): at any hour with `actual == 0` the computed `percent_diff`
is null/`NaN` (never a finite nonzero value and never `Infinity`, since the
zero denominator is masked away), and the downstream `create_contributor_col`
step turns exactly these nulls into `0` via `df.fillna(0)`; at hours with
`actual ≠ 0` the value is the usual quotient. -/
theorem percentDiff_zero_amended :
    (∀ yhat : ℚ, percentDiff 0 yhat = none ∧ fillna0 (percentDiff 0 yhat) = 0) ∧
    (∀ y yhat : ℚ, y ≠ 0 → percentDiff y yhat = some ((y - yhat) / y)) := by
  refine ⟨fun yhat => ⟨?_, ?_⟩, fun y yhat hy => ?_⟩ <;>
    simp [percentDiff, fillna0, *]

/-- C3: for an hour flagged anomalous, if the `±8`-hour window of the
forecast frame is nonempty, the anomaly weight is the minimum, over all
window rows, of the distance from the hour's actual value to either bound
(it is a lower bound of every such distance and is attained by one of them);
if the window is empty, the weight falls back to the hour's own
(upper-)bound distance. -/
theorem determineAnomalyWeight_min_spec (df : List WRow) (row : WRow)
    (ha : row.is_anomaly = true) :
    (windowSubset df row ≠ [] →
      ((∀ r ∈ windowSubset df row,
          determineAnomalyWeight df row ≤ |r.yhat_upper - row.y| ∧
          determineAnomalyWeight df row ≤ |r.yhat_lower - row.y|) ∧
       (∃ r ∈ windowSubset df row,
          determineAnomalyWeight df row = |r.yhat_upper - row.y| ∨
          determineAnomalyWeight df row = |r.yhat_lower - row.y|))) ∧
    (windowSubset df row = [] →
      determineAnomalyWeight df row = |row.yhat_upper - row.y|) := by
  constructor
  · intro hne
    have hsub : ¬ (windowSubset df row).isEmpty := by
      simpa [List.isEmpty_iff] using hne
    have hw : determineAnomalyWeight df row =
        listMin ((windowSubset df row).map
          (fun r => min |r.yhat_upper - row.y| |r.yhat_lower - row.y|)) := by
      simp only [determineAnomalyWeight, ha, if_true, hsub, if_false]
      exact listMin_map_min _ _ _ hne
    constructor
    · intro r hr
      have h1 : determineAnomalyWeight df row ≤
          min |r.yhat_upper - row.y| |r.yhat_lower - row.y| := by
        rw [hw]
        exact listMin_le (List.mem_map_of_mem _ hr)
      exact ⟨le_trans h1 (min_le_left _ _), le_trans h1 (min_le_right _ _)⟩
    · have hmem : listMin ((windowSubset df row).map
          (fun r => min |r.yhat_upper - row.y| |r.yhat_lower - row.y|)) ∈
          (windowSubset df row).map
            (fun r => min |r.yhat_upper - row.y| |r.yhat_lower - row.y|) :=
        listMin_mem (by simpa using hne)
      rcases List.mem_map.mp hmem with ⟨r, hr, hval⟩
      refine ⟨r, hr, ?_⟩
      rcases min_cases |r.yhat_upper - row.y| |r.yhat_lower - row.y| with
        ⟨hm, _⟩ | ⟨hm, _⟩
      · exact Or.inl (by rw [hw, ← hval, hm])
      · exact Or.inr (by rw [hw, ← hval, hm])
  · intro hemp
    simp [determineAnomalyWeight, ha, hemp]

/-- C3 (witness): the theorem instantiated at a one-row frame whose single
row is its own anomalous hour. -/
theorem determineAnomalyWeight_min_spec_witness :
    (windowSubset [⟨0, 10, 2, 6, true⟩] ⟨0, 10, 2, 6, true⟩ ≠ [] →
      ((∀ r ∈ windowSubset [⟨0, 10, 2, 6, true⟩] ⟨0, 10, 2, 6, true⟩,
          determineAnomalyWeight [⟨0, 10, 2, 6, true⟩] ⟨0, 10, 2, 6, true⟩ ≤
            |r.yhat_upper - (10 : ℚ)| ∧
          determineAnomalyWeight [⟨0, 10, 2, 6, true⟩] ⟨0, 10, 2, 6, true⟩ ≤
            |r.yhat_lower - (10 : ℚ)|) ∧
       (∃ r ∈ windowSubset [⟨0, 10, 2, 6, true⟩] ⟨0, 10, 2, 6, true⟩,
          determineAnomalyWeight [⟨0, 10, 2, 6, true⟩] ⟨0, 10, 2, 6, true⟩ =
            |r.yhat_upper - (10 : ℚ)| ∨
          determineAnomalyWeight [⟨0, 10, 2, 6, true⟩] ⟨0, 10, 2, 6, true⟩ =
            |r.yhat_lower - (10 : ℚ)|))) ∧
    (windowSubset [⟨0, 10, 2, 6, true⟩] ⟨0, 10, 2, 6, true⟩ = [] →
      determineAnomalyWeight [⟨0, 10, 2, 6, true⟩] ⟨0, 10, 2, 6, true⟩ =
        |(6 : ℚ) - 10|) :=
  determineAnomalyWeight_min_spec [⟨0, 10, 2, 6, true⟩] ⟨0, 10, 2, 6, true⟩ rfl

/-- C10: when the row being scored is itself a row of the searched frame,
the `±8`-hour window contains at least that row, so the window is never
empty and (for anomalous rows) the weight is always computed by the
nonempty-window branch, never by the fallback. -/
theorem windowSubset_nonempty_of_mem (df : List WRow) (row : WRow)
    (hmem : row ∈ df) :
    windowSubset df row ≠ [] ∧
    (row.is_anomaly = true →
      determineAnomalyWeight df row =
        min (listMin ((windowSubset df row).map (fun r => |r.yhat_upper - row.y|)))
            (listMin ((windowSubset df row).map (fun r => |r.yhat_lower - row.y|)))) := by
  have hin : row ∈ windowSubset df row := by
    refine List.mem_filter.mpr ⟨hmem, ?_⟩
    simp only [decide_eq_true_eq]
    omega
  have hne : windowSubset df row ≠ [] := fun h => by
    rw [h] at hin; cases hin
  refine ⟨hne, fun ha => ?_⟩
  have hsub : ¬ (windowSubset df row).isEmpty := by
    simpa [List.isEmpty_iff] using hne
  simp [determineAnomalyWeight, ha, hsub]

/-- C10 (witness): the theorem instantiated at a concrete two-row frame and
its second (anomalous) row. -/
theorem windowSubset_nonempty_of_mem_witness :
    windowSubset [⟨0, 1, 0, 2, false⟩, ⟨4, 9, 2, 6, true⟩] ⟨4, 9, 2, 6, true⟩ ≠ [] ∧
    ((⟨4, 9, 2, 6, true⟩ : WRow).is_anomaly = true →
      determineAnomalyWeight [⟨0, 1, 0, 2, false⟩, ⟨4, 9, 2, 6, true⟩] ⟨4, 9, 2, 6, true⟩ =
        min (listMin ((windowSubset [⟨0, 1, 0, 2, false⟩, ⟨4, 9, 2, 6, true⟩]
              ⟨4, 9, 2, 6, true⟩).map (fun r => |r.yhat_upper - (9 : ℚ)|)))
            (listMin ((windowSubset [⟨0, 1, 0, 2, false⟩, ⟨4, 9, 2, 6, true⟩]
              ⟨4, 9, 2, 6, true⟩).map (fun r => |r.yhat_lower - (9 : ℚ)|)))) :=
  windowSubset_nonempty_of_mem [⟨0, 1, 0, 2, false⟩, ⟨4, 9, 2, 6, true⟩]
    ⟨4, 9, 2, 6, true⟩ (by decide)

theorem mem_component_self (eps : ℚ) (pts : List ℚ) (i : Nat)
    (heps : 0 ≤ eps) (hi : i < pts.length) : i ∈ component eps pts i := by
  have key : ∀ (k : Nat) (s : List Nat), i ∈ s →
      i ∈ Nat.iterate (closeStep eps pts) k s := by
    intro k
    induction k with
    | zero => intro s hs; simpa using hs
    | succ k ih =>
      intro s hs
      rw [Function.iterate_succ_apply]
      apply ih
      refine List.mem_filter.mpr ⟨List.mem_range.mpr hi, ?_⟩
      refine List.any_eq_true.mpr ⟨i, hs, ?_⟩
      simpa using heps
  exact key pts.length [i] (by simp)

theorem dbscanClusters_cover (eps : ℚ) (pts : List ℚ) (heps : 0 ≤ eps) :
    ∀ i < pts.length, ∃ c ∈ dbscanClusters eps pts, i ∈ c := by
  have step : ∀ (l : List Nat) (acc : List (List Nat)) (i : Nat),
      (∃ c ∈ acc, i ∈ c) ∨ (i ∈ l ∧ i < pts.length) →
      ∃ c ∈ l.foldl (fun acc j =>
          if acc.any (fun c => decide (j ∈ c)) then acc
          else acc ++ [component eps pts j]) acc, i ∈ c := by
    intro l
    induction l with
    | nil =>
      intro acc i h
      rcases h with h | ⟨h, _⟩
      · simpa using h
      · cases h
    | cons j t ih =>
      intro acc i h
      simp only [List.foldl_cons]
      by_cases hj : acc.any (fun c => decide (j ∈ c))
      · rw [if_pos hj]
        rcases h with h | ⟨hmem, hlt⟩
        · exact ih acc i (Or.inl h)
        · rcases List.mem_cons.mp hmem with rfl | hmem'
          · rcases List.any_eq_true.mp hj with ⟨c, hc, hic⟩
            exact ih acc i (Or.inl ⟨c, hc, by simpa using hic⟩)
          · exact ih acc i (Or.inr ⟨hmem', hlt⟩)
      · rw [if_neg hj]
        rcases h with h | ⟨hmem, hlt⟩
        · rcases h with ⟨c, hc, hic⟩
          exact ih _ i (Or.inl ⟨c, List.mem_append_left _ hc, hic⟩)
        · rcases List.mem_cons.mp hmem with rfl | hmem'
          · exact ih _ i (Or.inl ⟨component eps pts i,
              List.mem_append_right _ (by simp),
              mem_component_self eps pts i heps hlt⟩)
          · exact ih _ i (Or.inr ⟨hmem', hlt⟩)
  intro i hi
  exact step (List.range pts.length) [] i (Or.inr ⟨List.mem_range.mpr hi, hi⟩)

/-- C4 (counterexample): for a deviation table with `n_samples = 2`, the
claimed formula gives `k = min(8, n_samples − 1) = 1`, but `find_eps`
clamps the neighbor count from below and uses `2`. -/
theorem findEpsNNeighbors_counterexample :
    findEpsNNeighbors 2 = 2 ∧ min 8 (2 - 1) = 1 ∧
    findEpsNNeighbors 2 ≠ min 8 (2 - 1) := by
  refine ⟨?_, ?_, ?_⟩ <;> decide

/-- C4 (amended): `find_eps` requests `n_neighbors = min(8, n_samples − 1)`
clamped below to `2` (and hands the sorted nearest-neighbor distance curve
to the external knee locator, returning the curve value at the elbow);
the clustering used by `find_maximum_contributors` is density clustering of
the row's absolute values at radius `eps * 0.5` with `min_samples = 1`,
under which every point of the row is assigned to some cluster (no point is
discarded as noise). -/
theorem findEps_params_spec :
    (∀ n : Nat, findEpsNNeighbors n = max 2 (min 8 (n - 1))) ∧
    (∀ (row : List (String × ℚ)) (eps : ℚ), 0 ≤ eps →
      ∀ i < row.length, ∃ c ∈ fmcClusters row eps, i ∈ c) := by
  constructor
  · intro n
    simp only [findEpsNNeighbors]
    split <;> omega
  · intro row eps heps i hi
    have h0 : (0 : ℚ) ≤ eps * (1 / 2) := by positivity
    have hlen : ((rowVals row).map (fun v => |v|)).length = row.length := by
      simp [rowVals]
    exact dbscanClusters_cover (eps * (1 / 2)) _ h0 i (by omega)

/-- C4 (witness): the amended statement instantiated at a concrete
three-value row with `eps = 2` and at `n = 5`. -/
theorem findEps_params_spec_witness :
    findEpsNNeighbors 5 = max 2 (min 8 (5 - 1)) ∧
    (0 : ℚ) ≤ 2 ∧ (0 : Nat) < 3 ∧
    (∃ c ∈ fmcClusters [("US", 5), ("UK", 5), ("CA", 0)] 2, 0 ∈ c) :=
  ⟨findEps_params_spec.1 5, by norm_num, by decide,
    findEps_params_spec.2 [("US", 5), ("UK", 5), ("CA", 0)] 2 (by norm_num) 0
      (by decide)⟩

theorem component_mem_lt (eps : ℚ) (pts : List ℚ) (hlen : 0 < pts.length)
    (i : Nat) : ∀ j ∈ component eps pts i, j < pts.length := by
  intro j hj
  have h1 : pts.length = (pts.length - 1) + 1 := by omega
  rw [component, h1, Function.iterate_succ_apply'] at hj
  exact List.mem_range.mp (List.mem_filter.mp hj).1

theorem dbscanClusters_mem_lt (eps : ℚ) (pts : List ℚ) (hlen : 0 < pts.length)
    {c : List Nat} (hc : c ∈ dbscanClusters eps pts) : ∀ i ∈ c, i < pts.length := by
  have aux : ∀ (l : List Nat) (acc : List (List Nat)),
      (∀ c' ∈ acc, ∀ i ∈ c', i < pts.length) →
      ∀ c' ∈ l.foldl (fun acc j =>
          if acc.any (fun c => decide (j ∈ c)) then acc
          else acc ++ [component eps pts j]) acc, ∀ i ∈ c', i < pts.length := by
    intro l
    induction l with
    | nil => intro acc hacc c' hc'; exact hacc c' hc'
    | cons j t ih =>
      intro acc hacc c' hc'
      simp only [List.foldl_cons] at hc'
      by_cases hj : acc.any (fun c => decide (j ∈ c))
      · rw [if_pos hj] at hc'
        exact ih acc hacc c' hc'
      · rw [if_neg hj] at hc'
        refine ih _ ?_ c' hc'
        intro c'' hc'' i hi
        rcases List.mem_append.mp hc'' with h | h
        · exact hacc c'' h i hi
        · rcases List.mem_singleton.mp h with rfl
          exact component_mem_lt eps pts hlen j i hi
  exact aux (List.range pts.length) [] (by intro c' hc'; cases hc') c hc

theorem dbscanClusters_ne_nil (eps : ℚ) (pts : List ℚ) (heps : 0 ≤ eps)
    (hlen : 0 < pts.length) : dbscanClusters eps pts ≠ [] := by
  obtain ⟨c, hc, _⟩ := dbscanClusters_cover eps pts heps 0 hlen
  intro h
  rw [h] at hc
  cases hc

theorem key_le_headD_insertionSort (key : List Nat → ℚ) (l : List (List Nat))
    (c : List Nat) (hc : c ∈ l) :
    key c ≤ key ((List.insertionSort (fun c₁ c₂ => key c₂ ≤ key c₁) l).headD []) := by
  haveI : IsTotal (List Nat) (fun c₁ c₂ => key c₂ ≤ key c₁) :=
    ⟨fun a b => (le_total (key b) (key a)).imp id id⟩
  haveI : IsTrans (List Nat) (fun c₁ c₂ => key c₂ ≤ key c₁) :=
    ⟨fun _ _ _ hab hbc => le_trans hbc hab⟩
  have hs := List.sorted_insertionSort (fun c₁ c₂ => key c₂ ≤ key c₁) l
  have hmem : c ∈ List.insertionSort (fun c₁ c₂ => key c₂ ≤ key c₁) l :=
    (List.perm_insertionSort _ l).mem_iff.mpr hc
  cases h : List.insertionSort (fun c₁ c₂ => key c₂ ≤ key c₁) l with
  | nil => rw [h] at hmem; cases hmem
  | cons a t =>
    rw [h] at hs hmem
    rcases List.mem_cons.mp hmem with rfl | hmem'
    · simp
    · simpa using List.rel_of_sorted_cons hs c hmem'

theorem headD_insertionSort_mem (key : List Nat → ℚ) (l : List (List Nat))
    (hl : l ≠ []) :
    ((List.insertionSort (fun c₁ c₂ => key c₂ ≤ key c₁) l).headD []) ∈ l := by
  cases h : List.insertionSort (fun c₁ c₂ => key c₂ ≤ key c₁) l with
  | nil =>
    have := (List.perm_insertionSort
      (fun c₁ c₂ => key c₂ ≤ key c₁) l).symm.length_eq
    rw [h] at this
    cases l with
    | nil => cases hl rfl
    | cons a t => simp at this
  | cons a t =>
    have : a ∈ List.insertionSort (fun c₁ c₂ => key c₂ ≤ key c₁) l := by
      rw [h]; exact List.mem_cons_self a t
    simpa using (List.perm_insertionSort _ l).mem_iff.mp this

theorem firstColWithValue_of_nodup (row : List (String × ℚ))
    (hnd : (rowVals row).Nodup) :
    ∀ i < row.length,
      firstColWithValue row ((rowVals row).getD i 0) = (row.getD i ("", 0)).1 := by
  induction row with
  | nil => intro i hi; simp at hi
  | cons p t ih =>
    intro i hi
    cases i with
    | zero =>
      simp [firstColWithValue, rowVals, List.find?]
    | succ i =>
      have hrw0 : rowVals (p :: t) = p.2 :: rowVals t := by simp [rowVals]
      rw [hrw0] at hnd
      have hnd0 : p.2 ∉ rowVals t := (List.nodup_cons.mp hnd).1
      have hnd' : (rowVals t).Nodup := (List.nodup_cons.mp hnd).2
      have hi' : i < t.length := by simpa using hi
      have hilen : i < (rowVals t).length := by simpa [rowVals] using hi'
      have hvmem : (rowVals t).getD i 0 ∈ rowVals t := by
        rw [List.getD_eq_getElem _ _ hilen]
        exact List.getElem_mem hilen
      have hne2 : ¬ (p.2 = (rowVals t).getD i 0) := by
        intro h
        exact hnd0 (h ▸ hvmem)
      have hrw : rowVals (p :: t) = p.2 :: rowVals t := by simp [rowVals]
      rw [hrw]
      simp only [List.getD_cons_succ]
      rw [firstColWithValue, List.find?]
      simp only [decide_eq_true_eq, hne2, decide_False]
      exact ih hnd' i hi'

/-- C5 (counterexample): at the row `{US: 5, UK: 5, CA: 0}` with `eps = 2`
the clustering yields two clusters, the top one being `{US, UK}` (indices 0
and 1, both of value 5); but the code returns `["US", "US"]` — for each
member *value* it takes the **first** column with that value — so `"UK"`,
which belongs to the top cluster, is not returned. -/
theorem findMaximumContributors_tie_counterexample :
    fmcClusters [("US", 5), ("UK", 5), ("CA", 0)] 2 = [[0, 1], [2]] ∧
    findMaximumContributors [("US", 5), ("UK", 5), ("CA", 0)] 2 =
      some ["US", "US"] ∧
    "UK" ∉ ["US", "US"] := by
  refine ⟨?_, ?_, by decide⟩
  · norm_num [fmcClusters, dbscanClusters, component, closeStep, rowVals,
      List.range_succ, Function.iterate_succ_apply, Function.iterate_zero]
  · norm_num [findMaximumContributors, fmcClusters, dbscanClusters, component,
      closeStep, rowVals, List.range_succ, Function.iterate_succ_apply,
      Function.iterate_zero, List.insertionSort, List.orderedInsert,
      clusterMaxAbs, listMax, firstColWithValue]

/-- C5 (amended): when the clustering of the row's absolute values yields
exactly one cluster, `find_maximum_contributors` returns `None` (no
contributors, not an error); when it yields two or more, the result is
obtained from the cluster whose maximum absolute member value is largest,
mapping each member to the **first** column holding that member's value —
which is exactly the cluster's own dimension values whenever the row's
values are pairwise distinct. -/
theorem findMaximumContributors_spec (row : List (String × ℚ)) (eps : ℚ)
    (heps : 0 ≤ eps) (hne : row ≠ []) :
    ((fmcClusters row eps).length = 1 →
      findMaximumContributors row eps = none) ∧
    ((fmcClusters row eps).length ≠ 1 →
      ∃ c ∈ fmcClusters row eps,
        (∀ c' ∈ fmcClusters row eps,
          clusterMaxAbs (rowVals row) c' ≤ clusterMaxAbs (rowVals row) c) ∧
        findMaximumContributors row eps =
          some (c.map (fun i => firstColWithValue row ((rowVals row).getD i 0))) ∧
        ((rowVals row).Nodup →
          c.map (fun i => firstColWithValue row ((rowVals row).getD i 0)) =
            c.map (fun i => (row.getD i ("", 0)).1))) := by
  have hlen0 : 0 < row.length := List.length_pos.mpr hne
  have hptslen : ((rowVals row).map (fun v => |v|)).length = row.length := by
    simp [rowVals]
  have hsortlen :
      (List.insertionSort
        (fun c₁ c₂ => clusterMaxAbs (rowVals row) c₂ ≤ clusterMaxAbs (rowVals row) c₁)
        (fmcClusters row eps)).length = (fmcClusters row eps).length :=
    (List.perm_insertionSort _ _).length_eq
  constructor
  · intro h1
    rw [findMaximumContributors, if_pos (by rw [hsortlen]; exact h1)]
  · intro h1
    have h0 : (0 : ℚ) ≤ eps * (1 / 2) := by positivity
    have hclne : fmcClusters row eps ≠ [] :=
      dbscanClusters_ne_nil _ _ h0 (by omega)
    refine ⟨(List.insertionSort
        (fun c₁ c₂ => clusterMaxAbs (rowVals row) c₂ ≤ clusterMaxAbs (rowVals row) c₁)
        (fmcClusters row eps)).headD [],
      headD_insertionSort_mem _ _ hclne, ?_, ?_, ?_⟩
    · intro c' hc'
      exact key_le_headD_insertionSort (clusterMaxAbs (rowVals row)) _ c' hc'
    · rw [findMaximumContributors, if_neg (by rw [hsortlen]; exact h1)]
    · intro hnd
      apply List.map_congr_left
      intro i hi
      have himem : i < row.length := by
        have := dbscanClusters_mem_lt (eps * (1 / 2))
          ((rowVals row).map (fun v => |v|)) (by omega)
          (headD_insertionSort_mem (clusterMaxAbs (rowVals row)) _ hclne) i hi
        omega
      exact firstColWithValue_of_nodup row hnd i himem

/-- C5 (witness): the amended statement instantiated at the row
`{US: 9, UK: 1}` with `eps = 4` (distinct values, two clusters). -/
theorem findMaximumContributors_spec_witness :
    ((fmcClusters [("US", 9), ("UK", 1)] 4).length = 1 →
      findMaximumContributors [("US", 9), ("UK", 1)] 4 = none) ∧
    ((fmcClusters [("US", 9), ("UK", 1)] 4).length ≠ 1 →
      ∃ c ∈ fmcClusters [("US", 9), ("UK", 1)] 4,
        (∀ c' ∈ fmcClusters [("US", 9), ("UK", 1)] 4,
          clusterMaxAbs (rowVals [("US", 9), ("UK", 1)]) c' ≤
            clusterMaxAbs (rowVals [("US", 9), ("UK", 1)]) c) ∧
        findMaximumContributors [("US", 9), ("UK", 1)] 4 =
          some (c.map (fun i =>
            firstColWithValue [("US", 9), ("UK", 1)]
              ((rowVals [("US", 9), ("UK", 1)]).getD i 0))) ∧
        ((rowVals [("US", 9), ("UK", 1)]).Nodup →
          c.map (fun i =>
            firstColWithValue [("US", 9), ("UK", 1)]
              ((rowVals [("US", 9), ("UK", 1)]).getD i 0)) =
            c.map (fun i => ([("US", 9), ("UK", 1)].getD i ("", (0 : ℚ))).1))) :=
  findMaximumContributors_spec [("US", 9), ("UK", 1)] 4 (by norm_num) (by decide)

/-- C7 (counterexample): an episode with 2 `visitors` anomalies and 3
`buyers` anomalies.  The episode's total anomaly count is 5 and the
upstream metrics account for 2 of it (40% < 50%), so the claim requires the
label "direct anomaly in buyers"; the code instead compares the upstream
count against `max_count * 0.5 = 1.5` (the most-common metric's own count,
not the total) and labels it "Funnel effect from visitors". -/
theorem rootCause_counterexample :
    rootCause [("visitors", 2), ("buyers", 3)] (fun _ => []) =
      some (RootCause.funnelEffect "visitors" []) ∧
    mostCommonMetric [("visitors", 2), ("buyers", 3)] = some "buyers" ∧
    upstreamAnomalies [("visitors", 2), ("buyers", 3)] 5 = 2 ∧
    (([("visitors", 2), ("buyers", 3)] : List (String × Nat)).map Prod.snd).sum = 5 ∧
    ¬ (2 * 2 ≥ 5) := by
  refine ⟨?_, ?_, ?_, ?_, ?_⟩ <;> decide

theorem maxByCount_upstream_isSome (counts : List (String × Nat)) (idx : Nat)
    (h : 0 < idx) : ∃ u, maxByCount counts (upstreamMetrics idx) = some u := by
  obtain ⟨n, rfl⟩ : ∃ n, idx = n + 1 := ⟨idx - 1, by omega⟩
  exact ⟨_, rfl⟩

/-- C7 (amended): for an episode whose most-anomalous metric (max count,
priority tie-break) sits at a positive index of the funnel list, the label
is "funnel effect from {first upstream metric of maximal count}" if and
only if the upstream-funnel metrics account for at least 50% of the
**most-anomalous metric's own anomaly count** (`max_count`, not the
episode's total anomaly count); otherwise — including metrics at funnel
head position or absent from the funnel list — the label **is** "direct
anomaly in {most-anomalous metric}" with that metric's own contributors:
the direct label appears exactly when the funnel condition fails, and a
label is always produced. -/
theorem rootCause_spec (counts : List (String × Nat))
    (contribsOf : String → List String) (mcm : String)
    (h : mostCommonMetric counts = some mcm) :
    (∀ u c, rootCause counts contribsOf = some (RootCause.funnelEffect u c) ↔
      ∃ idx, funnelIdx mcm = some idx ∧ 0 < idx ∧
        2 * upstreamAnomalies counts idx ≥ (mostCommonScan counts).2 ∧
        maxByCount counts (upstreamMetrics idx) = some u ∧
        c = contribsOf u) ∧
    (∀ m c, rootCause counts contribsOf = some (RootCause.directAnomaly m c) ↔
      (m = mcm ∧ c = contribsOf mcm ∧
        ¬ ∃ idx, funnelIdx mcm = some idx ∧ 0 < idx ∧
          2 * upstreamAnomalies counts idx ≥ (mostCommonScan counts).2)) ∧
    (∃ r, rootCause counts contribsOf = some r) := by
  have main :
      (rootCause counts contribsOf =
          some (RootCause.directAnomaly mcm (contribsOf mcm)) ∧
        ¬ ∃ idx, funnelIdx mcm = some idx ∧ 0 < idx ∧
          2 * upstreamAnomalies counts idx ≥ (mostCommonScan counts).2) ∨
      (∃ idx mcu, funnelIdx mcm = some idx ∧ 0 < idx ∧
        2 * upstreamAnomalies counts idx ≥ (mostCommonScan counts).2 ∧
        maxByCount counts (upstreamMetrics idx) = some mcu ∧
        rootCause counts contribsOf =
          some (RootCause.funnelEffect mcu (contribsOf mcu))) := by
    cases hidx : funnelIdx mcm with
    | none =>
      left
      constructor
      · simp only [rootCause, h, hidx]
      · rintro ⟨idx, hidx', _, _⟩
        exact Option.noConfusion hidx'
    | some idx =>
      by_cases hpos : idx > 0
      · by_cases hcmp : 2 * upstreamAnomalies counts idx ≥ (mostCommonScan counts).2
        · right
          obtain ⟨mcu, hmax⟩ := maxByCount_upstream_isSome counts idx hpos
          refine ⟨idx, mcu, rfl, hpos, hcmp, hmax, ?_⟩
          simp only [rootCause, h, hidx, if_pos hpos, if_pos hcmp, hmax]
        · left
          constructor
          · simp only [rootCause, h, hidx, if_pos hpos, if_neg hcmp]
          · rintro ⟨idx', hidx', hpos', hcmp'⟩
            obtain rfl : idx = idx' := Option.some.inj hidx'
            exact hcmp hcmp'
      · left
        constructor
        · simp only [rootCause, h, hidx, if_neg hpos]
        · rintro ⟨idx', hidx', hpos', _⟩
          obtain rfl : idx = idx' := Option.some.inj hidx'
          exact hpos hpos'
  rcases main with ⟨hd, hnc⟩ | ⟨idx, mcu, hidx, hpos, hcmp, hmax, hf⟩
  · refine ⟨?_, ?_, ⟨_, hd⟩⟩
    · intro u c
      rw [hd]
      simp only [Option.some.injEq]
      constructor
      · intro hx
        exact RootCause.noConfusion hx
      · rintro ⟨idx, hidx', hpos', hcmp', _, _⟩
        exact (hnc ⟨idx, hidx', hpos', hcmp'⟩).elim
    · intro m c
      rw [hd]
      simp only [Option.some.injEq, RootCause.directAnomaly.injEq]
      constructor
      · rintro ⟨rfl, rfl⟩
        exact ⟨rfl, rfl, hnc⟩
      · rintro ⟨rfl, rfl, _⟩
        exact ⟨rfl, rfl⟩
  · refine ⟨?_, ?_, ⟨_, hf⟩⟩
    · intro u c
      rw [hf]
      simp only [Option.some.injEq, RootCause.funnelEffect.injEq]
      constructor
      · rintro ⟨rfl, rfl⟩
        exact ⟨idx, hidx, hpos, hcmp, hmax, rfl⟩
      · rintro ⟨idx', hidx', hpos', hcmp', hmax', rfl⟩
        rw [hidx] at hidx'
        obtain rfl : idx = idx' := Option.some.inj hidx'
        rw [hmax] at hmax'
        obtain rfl : mcu = u := Option.some.inj hmax'
        exact ⟨rfl, rfl⟩
    · intro m c
      rw [hf]
      simp only [Option.some.injEq]
      constructor
      · intro hx
        exact RootCause.noConfusion hx
      · rintro ⟨_, _, hne⟩
        exact (hne ⟨idx, hidx, hpos, hcmp⟩).elim

/-- C7 (witness): the amended statement instantiated at an episode with 4
`orders` anomalies and 1 `visitors` anomaly (upstream 1, `max_count` 4:
`2*1 < 4`, so the direct label is produced). -/
theorem rootCause_spec_witness :
    (∀ u c, rootCause [("orders", 4), ("visitors", 1)] (fun m => [m]) =
        some (RootCause.funnelEffect u c) ↔
      ∃ idx, funnelIdx "orders" = some idx ∧ 0 < idx ∧
        2 * upstreamAnomalies [("orders", 4), ("visitors", 1)] idx ≥
          (mostCommonScan [("orders", 4), ("visitors", 1)]).2 ∧
        maxByCount [("orders", 4), ("visitors", 1)] (upstreamMetrics idx) = some u ∧
        c = [u]) ∧
    (∀ m c, rootCause [("orders", 4), ("visitors", 1)] (fun m => [m]) =
        some (RootCause.directAnomaly m c) ↔
      (m = "orders" ∧ c = ["orders"] ∧
        ¬ ∃ idx, funnelIdx "orders" = some idx ∧ 0 < idx ∧
          2 * upstreamAnomalies [("orders", 4), ("visitors", 1)] idx ≥
            (mostCommonScan [("orders", 4), ("visitors", 1)]).2)) ∧
    (∃ r, rootCause [("orders", 4), ("visitors", 1)] (fun m => [m]) = some r) :=
  rootCause_spec [("orders", 4), ("visitors", 1)] (fun m => [m]) "orders" (by decide)

theorem episodeChain_mono {L L' : List ARow} (hsub : ∀ x ∈ L, x ∈ L')
    {a b : ARow} (h : episodeChain L a b) : episodeChain L' a b :=
  Relation.ReflTransGen.mono
    (fun x y hxy => ⟨hsub x hxy.1, hsub y hxy.2.1, hxy.2.2⟩) h

theorem goodGroup_append (s : Int) (L : List ARow) (r : ARow)
    (hg : GoodGroup s L) (hr : rowSign r = some s)
    (hw : ∃ m ∈ L, |r.ds - m.ds| ≤ 3) : GoodGroup s (L ++ [r]) := by
  obtain ⟨m, hm, hgap⟩ := hw
  have hsub : ∀ x ∈ L, x ∈ L ++ [r] := fun x hx => List.mem_append_left _ hx
  have hrmem : r ∈ L ++ [r] := List.mem_append_right _ (by simp)
  constructor
  · intro x hx
    rcases List.mem_append.mp hx with hx | hx
    · exact hg.1 x hx
    · rcases List.mem_singleton.mp hx with rfl
      exact hr
  · have hto : ∀ a ∈ L, episodeChain (L ++ [r]) a r := by
      intro a ha
      exact (episodeChain_mono hsub (hg.2 a ha m hm)).tail
        ⟨hsub m hm, hrmem, by rw [abs_sub_comm]; exact hgap⟩
    have hfrom : ∀ b ∈ L, episodeChain (L ++ [r]) r b := by
      intro b hb
      exact Relation.ReflTransGen.head ⟨hrmem, hsub m hm, hgap⟩
        (episodeChain_mono hsub (hg.2 m hm b hb))
    intro a ha b hb
    rcases List.mem_append.mp ha with ha' | ha'
    · rcases List.mem_append.mp hb with hb' | hb'
      · exact episodeChain_mono hsub (hg.2 a ha' b hb')
      · rcases List.mem_singleton.mp hb' with rfl
        exact hto a ha'
    · rcases List.mem_singleton.mp ha' with rfl
      rcases List.mem_append.mp hb with hb' | hb'
      · exact hfrom b hb'
      · rcases List.mem_singleton.mp hb' with rfl
        exact Relation.ReflTransGen.refl

theorem absorbScan_good (s : Int) :
    ∀ (rest members : List ARow), GoodGroup s members →
      GoodGroup s (absorbScan s members rest).1 := by
  intro rest
  induction rest with
  | nil => intro members hg; simpa [absorbScan] using hg
  | cons r t ih =>
    intro members hg
    by_cases hc : (∃ m ∈ members, |r.ds - m.ds| ≤ 3) ∧ rowSign r = some s
    · have := ih (members ++ [r]) (goodGroup_append s members r hg hc.2 hc.1)
      simpa [absorbScan, if_pos hc] using this
    · have := ih members hg
      simpa [absorbScan, if_neg hc] using this

theorem absorbScan_conserve (s : Int) :
    ∀ (rest members : List ARow),
      ((absorbScan s members rest).1 : Multiset ARow) +
        ((absorbScan s members rest).2.1 : Multiset ARow) =
      (members : Multiset ARow) + (rest : Multiset ARow) := by
  intro rest
  induction rest with
  | nil => intro members; simp [absorbScan]
  | cons r t ih =>
    intro members
    by_cases hc : (∃ m ∈ members, |r.ds - m.ds| ≤ 3) ∧ rowSign r = some s
    · have h := ih (members ++ [r])
      simp only [absorbScan, if_pos hc]
      rw [h, Multiset.coe_add, Multiset.coe_add, List.append_assoc]
      rfl
    · have h := ih members
      simp only [absorbScan, if_neg hc]
      rw [← Multiset.cons_coe, Multiset.add_cons, h, ← Multiset.add_cons,
        Multiset.cons_coe]

theorem absorbFix_good (s : Int) :
    ∀ (fuel : Nat) (members rest : List ARow), GoodGroup s members →
      GoodGroup s (absorbFix s fuel members rest).1 := by
  intro fuel
  induction fuel with
  | zero => intro members rest hg; simpa [absorbFix] using hg
  | succ fuel ih =>
    intro members rest hg
    simp only [absorbFix]
    by_cases hch : (absorbScan s members rest).2.2
    · rw [if_pos hch]
      exact ih _ _ (absorbScan_good s rest members hg)
    · rw [if_neg hch]
      exact absorbScan_good s rest members hg

theorem absorbFix_conserve (s : Int) :
    ∀ (fuel : Nat) (members rest : List ARow),
      ((absorbFix s fuel members rest).1 : Multiset ARow) +
        ((absorbFix s fuel members rest).2 : Multiset ARow) =
      (members : Multiset ARow) + (rest : Multiset ARow) := by
  intro fuel
  induction fuel with
  | zero => intro members rest; simp [absorbFix]
  | succ fuel ih =>
    intro members rest
    simp only [absorbFix]
    by_cases hch : (absorbScan s members rest).2.2
    · rw [if_pos hch, ih, absorbScan_conserve]
    · rw [if_neg hch]
      exact absorbScan_conserve s rest members

theorem groupAux_spec :
    ∀ (fuel : Nat) (rows : List ARow),
      (∀ g ∈ groupAux fuel rows, GoodGroup g.1 g.2) ∧
      ((((groupAux fuel rows).map Prod.snd).flatten : List ARow) : Multiset ARow) ≤
        (rows : Multiset ARow) := by
  intro fuel
  induction fuel with
  | zero => intro rows; simp [groupAux]
  | succ fuel ih =>
    intro rows
    cases rows with
    | nil => simp [groupAux]
    | cons r rs =>
      cases hsign : rowSign r with
      | none =>
        constructor
        · intro g hg
          exact (ih rs).1 g (by simpa [groupAux, hsign] using hg)
        · have h1 := (ih rs).2
          have h2 : ((rs : List ARow) : Multiset ARow) ≤ ((r :: rs : List ARow) : Multiset ARow) := by
            rw [← Multiset.cons_coe]
            exact Multiset.le_cons_self _ _
          calc ((((groupAux (fuel + 1) (r :: rs)).map Prod.snd).flatten : List ARow) : Multiset ARow)
              = ((((groupAux fuel rs).map Prod.snd).flatten : List ARow) : Multiset ARow) := by
                simp [groupAux, hsign]
            _ ≤ (rs : Multiset ARow) := h1
            _ ≤ ((r :: rs : List ARow) : Multiset ARow) := h2
      | some s =>
        have hseed : GoodGroup s [r] := by
          constructor
          · intro m hm
            rcases List.mem_singleton.mp hm with rfl
            exact hsign
          · intro a ha b hb
            rcases List.mem_singleton.mp ha with rfl
            rcases List.mem_singleton.mp hb with rfl
            exact Relation.ReflTransGen.refl
        have hgood1 := absorbFix_good s (rs.length + 1) [r] rs hseed
        have hcons := absorbFix_conserve s (rs.length + 1) [r] rs
        constructor
        · intro g hg
          have hg' : g = (s, (absorbFix s (rs.length + 1) [r] rs).1) ∨
              g ∈ groupAux fuel (absorbFix s (rs.length + 1) [r] rs).2 := by
            simpa [groupAux, hsign] using hg
          rcases hg' with rfl | hg'
          · exact hgood1
          · exact (ih _).1 g hg'
        · have hih := (ih (absorbFix s (rs.length + 1) [r] rs).2).2
          have hflat : (((groupAux (fuel + 1) (r :: rs)).map Prod.snd).flatten : List ARow) =
              (absorbFix s (rs.length + 1) [r] rs).1 ++
              (((groupAux fuel (absorbFix s (rs.length + 1) [r] rs).2).map Prod.snd).flatten : List ARow) := by
            simp [groupAux, hsign]
          rw [hflat, ← Multiset.coe_add]
          calc ((absorbFix s (rs.length + 1) [r] rs).1 : Multiset ARow) +
                ((((groupAux fuel (absorbFix s (rs.length + 1) [r] rs).2).map Prod.snd).flatten : List ARow) : Multiset ARow)
              ≤ ((absorbFix s (rs.length + 1) [r] rs).1 : Multiset ARow) +
                ((absorbFix s (rs.length + 1) [r] rs).2 : Multiset ARow) := by
                exact add_le_add_left hih _
            _ = (([r] : List ARow) : Multiset ARow) + (rs : Multiset ARow) := hcons
            _ = ((r :: rs : List ARow) : Multiset ARow) := by
                rw [Multiset.coe_add]
                rfl

/-- C6: the episode grouping computes, for each group, a set of anomalous
hours that (i) all carry the group's sign (the sign of the first non-null
nonzero metric `percent_diff`), (ii) are pairwise linked by a chain of
group members with consecutive gaps of at most 3 hours (the transitive
closure of the 3-hour/same-sign adjacency under repeated absorption), and
such that (iii) each hour's timestamp occurs in at most one group — the
member hour-lists are duplicate-free and pairwise disjoint, so no two
episodes overlap in hours. -/
theorem groupAnomalies_partition_chain (rows : List ARow)
    (hnd : (rows.map ARow.ds).Nodup) :
    (∀ g ∈ groupAnomalies rows,
      (∀ m ∈ g.2, rowSign m = some g.1) ∧
      ∀ a ∈ g.2, ∀ b ∈ g.2, episodeChain g.2 a b) ∧
    (∀ g ∈ groupAnomalies rows, (g.2.map ARow.ds).Nodup) ∧
    ((groupAnomalies rows).map (fun g => g.2.map ARow.ds)).Pairwise
      List.Disjoint := by
  have hgood := (groupAux_spec rows.length rows).1
  have hle := (groupAux_spec rows.length rows).2
  have hmap : ((((groupAnomalies rows).map Prod.snd).flatten.map ARow.ds :
      List Int) : Multiset Int) ≤ ((rows.map ARow.ds : List Int) : Multiset Int) := by
    have := Multiset.map_le_map (f := ARow.ds) hle
    simpa [groupAnomalies] using this
  have hnd2 : ((((groupAnomalies rows).map Prod.snd).flatten.map ARow.ds :
      List Int)).Nodup := by
    have := Multiset.nodup_of_le hmap (Multiset.coe_nodup.mpr hnd)
    exact Multiset.coe_nodup.mp this
  rw [List.map_flatten] at hnd2
  have hnd3 : (((groupAnomalies rows).map (fun g => g.2.map ARow.ds)).flatten).Nodup := by
    simpa [List.map_map, Function.comp] using hnd2
  have hjoin := List.nodup_flatten.mp hnd3
  refine ⟨?_, ?_, hjoin.2⟩
  · intro g hg
    exact ⟨(hgood g hg).1, (hgood g hg).2⟩
  · intro g hg
    exact hjoin.1 _ (List.mem_map.mpr ⟨g, hg, rfl⟩)

/-- C6 (witness): the theorem instantiated at three concrete anomalous
hours `0` (+), `1` (−), `2` (+): the grouping must keep the two positive
hours together (gap 2 ≤ 3) and the negative hour apart. -/
theorem groupAnomalies_partition_chain_witness :
    (∀ g ∈ groupAnomalies
        [⟨0, [some 1]⟩, ⟨1, [some (-3)]⟩, ⟨2, [some 2]⟩],
      (∀ m ∈ g.2, rowSign m = some g.1) ∧
      ∀ a ∈ g.2, ∀ b ∈ g.2, episodeChain g.2 a b) ∧
    (∀ g ∈ groupAnomalies
        [⟨0, [some 1]⟩, ⟨1, [some (-3)]⟩, ⟨2, [some 2]⟩],
      (g.2.map ARow.ds).Nodup) ∧
    ((groupAnomalies
        [⟨0, [some 1]⟩, ⟨1, [some (-3)]⟩, ⟨2, [some 2]⟩]).map
      (fun g => g.2.map ARow.ds)).Pairwise List.Disjoint :=
  groupAnomalies_partition_chain
    [⟨0, [some 1]⟩, ⟨1, [some (-3)]⟩, ⟨2, [some 2]⟩] (by decide)

theorem count_flatten_eq_filter_length (c : String) :
    ∀ lists : List (List String), (∀ l ∈ lists, l.Nodup) →
      lists.flatten.count c = (lists.filter (fun l => decide (c ∈ l))).length := by
  intro lists
  induction lists with
  | nil => intro _; simp
  | cons l ls ih =>
    intro hnd
    have hl : l.Nodup := hnd l (List.mem_cons_self l ls)
    have hls := ih (fun l' hl' => hnd l' (List.mem_cons_of_mem l hl'))
    simp only [List.flatten_cons, List.count_append, List.filter_cons]
    by_cases hc : c ∈ l
    · rw [List.count_eq_one_of_mem hl hc]
      simp [hc, hls, Nat.add_comm]
    · rw [List.count_eq_zero_of_not_mem hc]
      simp [hc, hls]

/-- C9 (counterexample): a four-hour episode (hours 0–3) where `visitors`
is the selected metric with contributors in hours 0 and 1 only (`US`, then
`CA`), and `orders` is the selected metric of hours 2 and 3.  `US` appears
in only 1 of the episode's 4 hours (25% < 50%), yet
`get_consistent_contributors` classifies it as consistent, because the
threshold denominator is the 2 recorded `visitors` lists, not the 4
episode hours. -/
theorem consistentThreshold_counterexample :
    "US" ∈ consistentFor [["US"], ["CA"]] ∧
    ("visitors", ["US", "CA"]) ∈ getConsistentContributors
      (scanGroup
        [⟨0, [("visitors", true), ("orders", false)],
            [("visitors", ["US"]), ("orders", [])]⟩,
         ⟨1, [("visitors", true), ("orders", false)],
            [("visitors", ["CA"]), ("orders", [])]⟩,
         ⟨2, [("visitors", false), ("orders", true)],
            [("visitors", []), ("orders", ["UK"])]⟩,
         ⟨3, [("visitors", false), ("orders", true)],
            [("visitors", []), ("orders", ["UK"])]⟩] 0 3).1 ∧
    (groupHours
        [⟨0, [("visitors", true), ("orders", false)],
            [("visitors", ["US"]), ("orders", [])]⟩,
         ⟨1, [("visitors", true), ("orders", false)],
            [("visitors", ["CA"]), ("orders", [])]⟩,
         ⟨2, [("visitors", false), ("orders", true)],
            [("visitors", []), ("orders", ["UK"])]⟩,
         ⟨3, [("visitors", false), ("orders", true)],
            [("visitors", []), ("orders", ["UK"])]⟩] 0 3).length = 4 ∧
    ((groupHours
        [⟨0, [("visitors", true), ("orders", false)],
            [("visitors", ["US"]), ("orders", [])]⟩,
         ⟨1, [("visitors", true), ("orders", false)],
            [("visitors", ["CA"]), ("orders", [])]⟩,
         ⟨2, [("visitors", false), ("orders", true)],
            [("visitors", []), ("orders", ["UK"])]⟩,
         ⟨3, [("visitors", false), ("orders", true)],
            [("visitors", []), ("orders", ["UK"])]⟩] 0 3).filter
      (fun r => decide ("US" ∈ contribsAt r "visitors"))).length = 1 ∧
    ¬ (2 * 1 ≥ 4) := by
  refine ⟨?_, ?_, ?_, ?_, ?_⟩ <;> decide

/-- C9 (amended): `get_consistent_contributors` marks a contributor
consistent for a metric if and only if its total number of occurrences
across the metric's **recorded** per-hour contributor lists is at least
50% of the number of those lists — the denominator is the count of hours
at which the metric was the selected anomalous metric and had a nonempty
contributor cell, not the episode's full hour count.  When each hour's
list is duplicate-free, the occurrence total equals the number of recorded
lists containing the contributor. -/
theorem consistentFor_spec (lists : List (List String)) (c : String) :
    (c ∈ consistentFor lists ↔
      c ∈ lists.flatten ∧ 2 * lists.flatten.count c ≥ lists.length) ∧
    ((∀ l ∈ lists, l.Nodup) →
      lists.flatten.count c =
        (lists.filter (fun l => decide (c ∈ l))).length) ∧
    (∀ (mcbh : List (String × List (List String))), ∀ q ∈ mcbh,
      (q.1, consistentFor q.2) ∈ getConsistentContributors mcbh) := by
  refine ⟨?_, ?_, ?_⟩
  · constructor
    · intro hm
      have := List.mem_filter.mp hm
      exact ⟨List.mem_dedup.mp this.1, by simpa using this.2⟩
    · intro ⟨h1, h2⟩
      exact List.mem_filter.mpr ⟨List.mem_dedup.mpr h1, by simpa using h2⟩
  · exact count_flatten_eq_filter_length c lists
  · intro mcbh q hq
    exact List.mem_map.mpr ⟨q, hq, rfl⟩

theorem hasConsistent_eq_false_iff (cc : List (String × List String)) :
    hasConsistent cc = false ↔ ∀ p ∈ cc, p.2 = [] := by
  simp [hasConsistent, List.any_eq_false, List.isEmpty_iff]

theorem hasConsistent_eq_true_iff (cc : List (String × List String)) :
    hasConsistent cc = true ↔ ∃ p ∈ cc, p.2 ≠ [] := by
  simp [hasConsistent, List.any_eq_true, List.isEmpty_iff]

theorem sharedContributors_ne_nil_iff (cc : List (String × List String)) :
    sharedContributors cc ≠ [] ↔
      ∃ p q, [p, q].Sublist cc ∧ ∃ c, c ∈ p.2 ∧ c ∈ q.2 := by
  induction cc with
  | nil => simp [sharedContributors]
  | cons p t ih =>
    simp only [sharedContributors]
    constructor
    · intro h
      by_cases hf : p.2.filter (fun c => t.any (fun q => decide (c ∈ q.2))) = []
      · have ht : sharedContributors t ≠ [] := by
          intro h0
          exact h (by rw [hf, h0]; rfl)
        obtain ⟨a, b, hsub, c, hc1, hc2⟩ := ih.mp ht
        exact ⟨a, b, List.Sublist.cons p hsub, c, hc1, hc2⟩
      · obtain ⟨c, hcmem⟩ := List.exists_mem_of_ne_nil _ hf
        have hm := List.mem_filter.mp hcmem
        obtain ⟨q, hq, hcq⟩ := List.any_eq_true.mp hm.2
        exact ⟨p, q, List.Sublist.cons₂ p (List.singleton_sublist.mpr hq),
          c, hm.1, by simpa using hcq⟩
    · rintro ⟨a, b, hsub, c, hc1, hc2⟩
      cases hsub with
      | cons _ h' =>
        have ht : sharedContributors t ≠ [] := ih.mpr ⟨a, b, h', c, hc1, hc2⟩
        intro h0
        exact ht (List.append_eq_nil.mp h0).2
      | cons₂ _ h' =>
        have hb : b ∈ t := List.singleton_sublist.mp h'
        have hcf : c ∈ p.2.filter (fun c => t.any (fun q => decide (c ∈ q.2))) :=
          List.mem_filter.mpr
            ⟨hc1, List.any_eq_true.mpr ⟨b, hb, by simpa using hc2⟩⟩
        intro h0
        rw [(List.append_eq_nil.mp h0).1] at hcf
        cases hcf

/-- C8 (counterexample): a two-hour episode in which `visitors` **and**
`orders` are anomalous at every hour — a multi-hour, multi-metric episode
in the claim's sense — is classified `D`, not one of `A`/`B`/`C`: the
code's `unique_metrics` keeps only each hour's **highest-priority**
anomalous metric (`visitors` wins both hours), so the episode looks
single-metric to the classifier. -/
theorem classifyGroup_multimetric_D_counterexample :
    classifyGroup exReportD 0 1 = some Scen.D ∧
    (0 : Int) ≠ 1 ∧
    (((groupHours exReportD 0 1).map hourMetrics).flatten).dedup =
      ["visitors", "orders"] ∧
    (((scanGroup exReportD 0 1).2).map Prod.snd).dedup = ["visitors"] := by
  refine ⟨?_, ?_, ?_, ?_⟩ <;> decide

/-- C8 (amended): the classification is exhaustive and exclusive over the
code's own notion of the episode's metrics — the per-hour
**highest-priority** anomalous metric of each hour.  For every group whose
range contains at least one anomalous hour: it is classified `D` exactly
when it is single-hour (`start_time == end_time`) or those per-hour
selected metrics are all one metric (even if further metrics are anomalous
in the same hours); otherwise it receives exactly one of `A`/`B`/`C`, with
`C` exactly when no metric has a consistent contributor, `A` exactly when
some consistent contributor is shared by two (ordered) metric entries, and
`B` exactly when consistent contributors exist but none is shared.  A
group with no anomalous hour is skipped (`None`). -/
theorem classifyGroup_spec (report : List RRow) (start stop : Int) :
    ((scanGroup report start stop).2 = [] ↔
      classifyGroup report start stop = none) ∧
    ((scanGroup report start stop).2 ≠ [] →
      ((classifyGroup report start stop = some Scen.D ↔
        (start = stop ∨
          ((((scanGroup report start stop).2).map Prod.snd).dedup).length = 1)) ∧
      (¬ (start = stop ∨
          ((((scanGroup report start stop).2).map Prod.snd).dedup).length = 1) →
        ((classifyGroup report start stop = some Scen.A ∨
          classifyGroup report start stop = some Scen.B ∨
          classifyGroup report start stop = some Scen.C) ∧
         (classifyGroup report start stop = some Scen.C ↔
           ∀ p ∈ getConsistentContributors (scanGroup report start stop).1,
             p.2 = []) ∧
         (classifyGroup report start stop = some Scen.A ↔
           ∃ p q, [p, q].Sublist
               (getConsistentContributors (scanGroup report start stop).1) ∧
             ∃ c, c ∈ p.2 ∧ c ∈ q.2) ∧
         (classifyGroup report start stop = some Scen.B ↔
           ((∃ p ∈ getConsistentContributors (scanGroup report start stop).1,
              p.2 ≠ []) ∧
            ¬ ∃ p q, [p, q].Sublist
                (getConsistentContributors (scanGroup report start stop).1) ∧
              ∃ c, c ∈ p.2 ∧ c ∈ q.2)))))) := by
  set cc := getConsistentContributors (scanGroup report start stop).1 with hcc
  constructor
  · constructor
    · intro h
      simp [classifyGroup, h]
    · intro h
      by_cases hempty : (scanGroup report start stop).2 = []
      · exact hempty
      · exfalso
        have hompty : ((scanGroup report start stop).2).isEmpty = false := by
          simpa [List.isEmpty_iff] using hempty
        rw [classifyGroup] at h
        rw [hompty] at h
        simp only [Bool.false_eq_true, if_false] at h
        split_ifs at h
  · intro hne
    have hompty : ((scanGroup report start stop).2).isEmpty = false := by
      simpa [List.isEmpty_iff] using hne
    by_cases hD : start = stop ∨
        ((((scanGroup report start stop).2).map Prod.snd).dedup).length = 1
    · have hcls : classifyGroup report start stop = some Scen.D := by
        rw [classifyGroup, hompty]
        simp [hD]
      constructor
      · simp [hcls, hD]
      · intro hnD
        exact absurd hD hnD
    · have hcls : classifyGroup report start stop =
          (if !hasConsistent cc then some Scen.C
           else if !(sharedContributors cc).isEmpty then some Scen.A
           else some Scen.B) := by
        rw [classifyGroup, hompty]
        simp [hD, hcc]
      constructor
      · constructor
        · intro h
          rw [hcls] at h
          split_ifs at h <;> simp_all
        · intro h
          exact absurd h hD
      · intro _
        by_cases hhas : hasConsistent cc
        · by_cases hsh : sharedContributors cc = []
          · have hB : classifyGroup report start stop = some Scen.B := by
              rw [hcls, hhas]
              simp [hsh]
            refine ⟨Or.inr (Or.inl hB), ?_, ?_, ?_⟩
            · rw [hB]
              simp only [Option.some.injEq]
              constructor
              · intro h; cases h
              · intro hall
                have := (hasConsistent_eq_false_iff cc).mpr hall
                rw [hhas] at this
                cases this
            · rw [hB]
              simp only [Option.some.injEq]
              constructor
              · intro h; cases h
              · intro hex
                have := (sharedContributors_ne_nil_iff cc).mpr hex
                exact absurd hsh this
            · rw [hB]
              simp only [Option.some.injEq, true_iff]
              refine ⟨(hasConsistent_eq_true_iff cc).mp hhas, ?_⟩
              intro hex
              exact (sharedContributors_ne_nil_iff cc).mpr hex hsh
          · have hA : classifyGroup report start stop = some Scen.A := by
              rw [hcls, hhas]
              have : (sharedContributors cc).isEmpty = false := by
                simpa [List.isEmpty_iff] using hsh
              simp [this]
            refine ⟨Or.inl hA, ?_, ?_, ?_⟩
            · rw [hA]
              simp only [Option.some.injEq]
              constructor
              · intro h; cases h
              · intro hall
                have := (hasConsistent_eq_false_iff cc).mpr hall
                rw [hhas] at this
                cases this
            · rw [hA]
              simp only [Option.some.injEq, true_iff]
              exact (sharedContributors_ne_nil_iff cc).mp hsh
            · rw [hA]
              simp only [Option.some.injEq]
              constructor
              · intro h; cases h
              · rintro ⟨_, hnsh⟩
                exact absurd ((sharedContributors_ne_nil_iff cc).mp hsh) hnsh
        · have hhasf : hasConsistent cc = false := by
            simpa using hhas
          have hC : classifyGroup report start stop = some Scen.C := by
            rw [hcls, hhasf]
            simp
          have hall : ∀ p ∈ cc, p.2 = [] :=
            (hasConsistent_eq_false_iff cc).mp hhasf
          refine ⟨Or.inr (Or.inr hC), ?_, ?_, ?_⟩
          · rw [hC]
            simp only [Option.some.injEq, true_iff]
            exact hall
          · rw [hC]
            simp only [Option.some.injEq]
            constructor
            · intro h; cases h
            · rintro ⟨p, q, hsub, c, hc1, hc2⟩
              have hp : p ∈ cc := hsub.subset (by simp)
              rw [hall p hp] at hc1
              cases hc1
          · rw [hC]
            simp only [Option.some.injEq]
            constructor
            · intro h; cases h
            · rintro ⟨⟨p, hp, hpne⟩, _⟩
              exact (hpne (hall p hp)).elim

/-- C8 (witness): on `exReportA` over hours `[0, 1]` the group is
multi-hour and multi-metric, and the theorem's `A` characterization is
exercised at that concrete input. -/
theorem classifyGroup_spec_witness :
    (scanGroup exReportA 0 1).2 ≠ [] ∧
    ¬ ((0 : Int) = 1 ∨
        ((((scanGroup exReportA 0 1).2).map Prod.snd).dedup).length = 1) ∧
    (classifyGroup exReportA 0 1 = some Scen.A ↔
      ∃ p q, [p, q].Sublist (getConsistentContributors (scanGroup exReportA 0 1).1) ∧
        ∃ c, c ∈ p.2 ∧ c ∈ q.2) :=
  ⟨by decide, by decide,
    (((classifyGroup_spec exReportA 0 1).2 (by decide)).2 (by decide)).2.2.1⟩

/-- C9 (witness): the amended statement instantiated at the recorded lists
`[[US], [CA]]` and the contributor `CA`. -/
theorem consistentFor_spec_witness :
    ("CA" ∈ consistentFor [["US"], ["CA"]] ↔
      "CA" ∈ ([["US"], ["CA"]] : List (List String)).flatten ∧
      2 * ([["US"], ["CA"]] : List (List String)).flatten.count "CA" ≥
        ([["US"], ["CA"]] : List (List String)).length) ∧
    ((∀ l ∈ ([["US"], ["CA"]] : List (List String)), l.Nodup) →
      ([["US"], ["CA"]] : List (List String)).flatten.count "CA" =
        (([["US"], ["CA"]] : List (List String)).filter
          (fun l => decide ("CA" ∈ l))).length) ∧
    (∀ (mcbh : List (String × List (List String))), ∀ q ∈ mcbh,
      (q.1, consistentFor q.2) ∈ getConsistentContributors mcbh) :=
  consistentFor_spec [["US"], ["CA"]] "CA"

end BlotOut

